import Mathlib

/-!
Shallow embedding of the Toyota maintenance-scraper parsing core.

The main model follows `src/parsers/maintenance_pdf.py` (namespace
`MaintenancePdf`): the interval-header scanner, the checkbox/underscore item
extractors, the special-operating-conditions resolver, the service-text
cleaner, and the top-level `parse` entry point.  A second, independent model
follows `src/toyota-maintenance-scraper/parsers/toyota_pdf.py` (namespace
`ToyotaPdf`): the fallback standard-schedule generator.

Python strings are modelled as `List Char`; the regular expressions of the
source are hand-compiled to deterministic scanners that reproduce the
backtracking behaviour of Python `re` on the concrete patterns in the source
(`\s` and `\d` are modelled over their ASCII fragments, which is the alphabet
of the documents the parser targets).  Scanning recursions are driven by a
fuel argument instantiated with the input length, which is an upper bound on
the number of scanning steps because every step consumes at least one
character.
-/

namespace MaintenancePdf

/-- ASCII fragment of Python `str.isspace` / regex `\s`. -/
def isSpaceB (c : Char) : Bool :=
  c = ' ' || c = '\t' || c = '\n' || c = '\r' || c = '\x0b' || c = '\x0c'

/-- ASCII decimal digit, the fragment of regex `\d` relevant to the corpus. -/
def isDigitB (c : Char) : Bool := '0' ≤ c && c ≤ '9'

/-- ASCII lower-casing, modelling Python `str.lower` on the ASCII fragment. -/
def toLowerC (c : Char) : Char :=
  if 'A' ≤ c && c ≤ 'Z' then Char.ofNat (c.toNat + 32) else c

/-- Substring test, modelling Python `needle in hay` on strings. -/
def containsSL (needle : List Char) : List Char → Bool
  | [] => needle.isEmpty
  | c :: cs => needle.isPrefixOf (c :: cs) || containsSL needle cs

/-- Python `text.split(sep, 1)` for a non-empty separator: `none` when the
separator does not occur, otherwise the parts before and after its first
occurrence. -/
def splitOnceAt (sep : List Char) : List Char → Option (List Char × List Char)
  | [] => none
  | c :: cs =>
    if sep.isPrefixOf (c :: cs) then some ([], (c :: cs).drop sep.length)
    else (splitOnceAt sep cs).map (fun pr => (c :: pr.1, pr.2))

/-- Python `text.split(sep)` for a single-character separator: keeps empty
pieces, so the result is always non-empty. -/
def splitLinesAux (acc : List Char) : List Char → List (List Char)
  | [] => [acc]
  | c :: cs => if c = '\n' then acc :: splitLinesAux [] cs else splitLinesAux (acc ++ [c]) cs

/-- Split a text into lines at each newline, as Python `text.split("\n")`. -/
def splitLines (cs : List Char) : List (List Char) := splitLinesAux [] cs

/-- Python `sep.join(pieces)`. -/
def joinWith (sep : List Char) : List (List Char) → List Char
  | [] => []
  | [w] => w
  | w :: ws => w ++ sep ++ joinWith sep ws

/-- Rejoin the lines of a buffered block, as Python `"\n".join(block)`. -/
def joinLines (ls : List (List Char)) : List Char := joinWith ['\n'] ls

/-- Whitespace word splitter, modelling Python `str.split()` with no
arguments: maximal runs of non-whitespace, empty pieces discarded. -/
def splitWsAux (acc : List Char) : List Char → List (List Char)
  | [] => if acc = [] then [] else [acc]
  | c :: cs =>
    if isSpaceB c then
      if acc = [] then splitWsAux [] cs else acc :: splitWsAux [] cs
    else splitWsAux (acc ++ [c]) cs

/-- Python `" ".join(text.split())`: collapse every internal whitespace run to
one space and drop leading/trailing whitespace. -/
def collapseWs (cs : List Char) : List Char := joinWith [' '] (splitWsAux [] cs)

/-- Python `str.strip()`. -/
def stripL (cs : List Char) : List Char :=
  ((cs.dropWhile isSpaceB).reverse.dropWhile isSpaceB).reverse

/-- Python `int(s)` restricted to the digit-only capture groups produced by
the header pattern: `none` unless the text is a non-empty digit string. -/
def parseNatQ (l : List Char) : Option Nat :=
  if l ≠ [] ∧ l.all isDigitB then
    some (l.foldl (fun n c => n * 10 + (c.toNat - '0'.toNat)) 0)
  else none

/-- Single maintenance item, as the `MaintenanceItem` dataclass of
`maintenance_pdf.py`: `service`, `category` (`"standard"`, `"inspection"` or
`"special_condition"`) and an optional `condition` tag. -/
structure MaintenanceItem where
  service : String
  category : String := "standard"
  condition : Option String := none
deriving DecidableEq

/-- Maintenance schedule for one mileage interval, as the
`MaintenanceInterval` dataclass. -/
structure MaintenanceInterval where
  interval_miles : Nat
  interval_months : Nat
  items : List MaintenanceItem := []
deriving DecidableEq

/-- Complete schedule, as the `MaintenanceSchedule` dataclass. -/
structure MaintenanceSchedule where
  make : String
  model : String
  year : Int
  intervals : List MaintenanceInterval := []
  source_pdf : Option String := none
deriving DecidableEq

/-- Strip a leading digit run and the whitespace following it, modelling one
application of `re.sub(r"^\d+\s*", "", text)`. -/
def stripLeadingNum (cs : List Char) : List Char :=
  let pr := cs.span isDigitB
  if pr.1 = [] then cs else pr.2.dropWhile isSpaceB

/-- Index of the first `)` reachable without crossing a newline, the target
of the lazy group in `re.sub(r"\(.*?\)", "", text)` (`.` does not match a
newline). -/
def findClose : List Char → Option Nat
  | [] => none
  | c :: cs =>
    if c = ')' then some 0
    else if c = '\n' then none
    else (findClose cs).map (· + 1)

/-- Scanning loop of `removeParens`, driven by fuel.  Every step consumes at
least one character, so the remaining text is never longer than the fuel
when the caller starts with the input length; at fuel zero the remaining
text is therefore empty and is returned unchanged. -/
def removeParensAux : Nat → List Char → List Char
  | 0, l => l
  | _ + 1, [] => []
  | fuel + 1, c :: cs =>
    if c = '(' then
      match findClose cs with
      | some i => removeParensAux fuel (cs.drop (i + 1))
      | none => c :: removeParensAux fuel cs
    else c :: removeParensAux fuel cs

/-- Remove every parenthesised group, modelling
`re.sub(r"\(.*?\)", "", text)`: each `(` with a following `)` on the same
line is removed together with the enclosed text, scanning resumes after the
`)`. -/
def removeParens (cs : List Char) : List Char := removeParensAux cs.length cs

/-- Scanning loop of `subToEol`, fuel-driven like `removeParensAux`. -/
def subToEolAux (p : Char) (ps : List Char) : Nat → List Char → List Char
  | 0, l => l
  | _ + 1, [] => []
  | fuel + 1, c :: cs =>
    if (p :: ps).isPrefixOf (c :: cs) then
      subToEolAux p ps fuel (((c :: cs).drop (ps.length + 1)).dropWhile (fun x => !(x = '\n')))
    else c :: subToEolAux p ps fuel cs

/-- Remove every occurrence of a (non-empty) literal pattern together with
the rest of its line, modelling `re.sub(r"LITERAL.*", "", text)` where `.`
stops at a newline. -/
def subToEol (p : Char) (ps : List Char) (cs : List Char) : List Char :=
  subToEolAux p ps cs.length cs

/-- The five noise patterns of `_clean_service_text`, in source order: a
leading number, a parenthetical, and the three footer patterns
(`Dealer Service Verification.*`, `Date:.*`, `Mileage:.*`). -/
inductive NoisePat
  | leadingNum
  | parens
  | dealer
  | date
  | mileage
deriving DecidableEq

/-- Apply one noise pattern as `re.sub(pattern, "", text)` would. -/
def applyNoisePat : NoisePat → List Char → List Char
  | .leadingNum => stripLeadingNum
  | .parens => removeParens
  | .dealer => subToEol 'D' "ealer Service Verification".toList
  | .date => subToEol 'D' "ate:".toList
  | .mileage => subToEol 'M' "ileage:".toList

/-- The `noise_patterns` list of `_clean_service_text`. -/
def noisePatterns : List NoisePat :=
  [.leadingNum, .parens, .dealer, .date, .mileage]

/-- Model of `_clean_service_text`: collapse whitespace, then apply
`noise_patterns[:-3]` (all but the last three patterns) in order, then strip.
The slice is reproduced literally: only the leading-number and parenthetical
patterns are ever applied. -/
def cleanServiceTextL (cs : List Char) : List Char :=
  stripL ((noisePatterns.take (noisePatterns.length - 3)).foldl
    (fun t pat => applyNoisePat pat t) (collapseWs cs))

/-- String-valued wrapper of `cleanServiceTextL`, the form used by
`_extract_items`. -/
def cleanServiceText (cs : List Char) : String := String.mk (cleanServiceTextL cs)

/-- Generic `re.finditer` driver: at each position try the single-position
matcher; on success emit `(start, extra, group)` — the match occupies
`extra + 1` characters — and resume after the match, otherwise advance one
character.  The fuel bounds the number of steps; callers pass the input
length plus one, which suffices since every step consumes a character. -/
def finditerAux (matchAt : List Char → Option (α × Nat)) :
    Nat → List Char → Nat → List (Nat × Nat × α)
  | 0, _, _ => []
  | _ + 1, [], _ => []
  | fuel + 1, c :: rest, pos =>
    match matchAt (c :: rest) with
    | some (g, extra) =>
      (pos, extra, g) :: finditerAux matchAt fuel (rest.drop extra) (pos + extra + 1)
    | none => finditerAux matchAt fuel rest (pos + 1)

/-- Single-position matcher for the checkbox item pattern
`■\s*([^\n■]+)`: a `■`, then greedy whitespace (giving characters back from
the end while the mandatory group would otherwise be empty), then the
maximal non-empty run avoiding newline and `■`.  Returns the group and the
consumed length minus one. -/
def cbTryJ (r : List Char) : Nat → Option (List Char × Nat)
  | 0 =>
    let g := r.takeWhile (fun c => !(c = '\n') && !(c = '■'))
    if g = [] then none else some (g, g.length)
  | j + 1 =>
    let g := (r.drop (j + 1)).takeWhile (fun c => !(c = '\n') && !(c = '■'))
    if g = [] then cbTryJ r j else some (g, j + 1 + g.length)

/-- Match the checkbox pattern at the current position. -/
def matchCbAt : List Char → Option (List Char × Nat)
  | [] => none
  | c :: r =>
    if c = '■' then cbTryJ r (r.takeWhile isSpaceB).length else none

/-- Lookahead `(?=\s*_|\n|$)` of the inspection item pattern. -/
def inspLookahead (t : List Char) : Bool :=
  match t with
  | [] => true
  | c :: _ =>
    c = '\n' ||
      (match t.dropWhile isSpaceB with
       | '_' :: _ => true
       | _ => false)

/-- Lazy expansion of the inspection group `([^\n_]+?)`: starting from the
accumulated characters, extend one character at a time until the lookahead
holds.  Whenever the lookahead fails the next character is automatically
outside `{newline, underscore}`, so no membership test is needed. -/
def growGroup (acc : List Char) : List Char → List Char
  | [] => acc
  | c :: t => if inspLookahead (c :: t) then acc else growGroup (acc ++ [c]) t

/-- Backtracking over the greedy `\s*` of the inspection pattern
`_\s*([^\n_]+?)(?=\s*_|\n|$)`: try the maximal whitespace prefix first and
give characters back while the group cannot start. -/
def inspTryJ (r : List Char) : Nat → Option (List Char × Nat)
  | 0 =>
    match r with
    | c :: t =>
      if !(c = '\n') && !(c = '_') then
        let g := growGroup [c] t
        some (g, g.length)
      else none
    | [] => none
  | j + 1 =>
    match r.drop (j + 1) with
    | c :: t =>
      if !(c = '\n') && !(c = '_') then
        let g := growGroup [c] t
        some (g, j + 1 + g.length)
      else inspTryJ r j
    | [] => inspTryJ r j

/-- Match the inspection (underscored) item pattern at the current
position. -/
def matchInspAt : List Char → Option (List Char × Nat)
  | [] => none
  | c :: r =>
    if c = '_' then inspTryJ r (r.takeWhile isSpaceB).length else none

/-- All checkbox matches of a text, as `re.finditer` would produce them. -/
def finditerCb (cs : List Char) : List (Nat × Nat × List Char) :=
  finditerAux matchCbAt (cs.length + 1) cs 0

/-- All inspection matches of a text. -/
def finditerInsp (cs : List Char) : List (Nat × Nat × List Char) :=
  finditerAux matchInspAt (cs.length + 1) cs 0

/-- Take exactly `n` digits from the front. -/
def takeExactDigits : Nat → List Char → Option (List Char × List Char)
  | 0, cs => some ([], cs)
  | _ + 1, [] => none
  | n + 1, c :: cs =>
    if isDigitB c then (takeExactDigits n cs).map (fun pr => (c :: pr.1, pr.2))
    else none

/-- Case-insensitive literal matcher (the pattern is given lower-case):
consume the pattern and return the rest, modelling a literal inside an
`re.IGNORECASE` pattern. -/
def matchCI : List Char → List Char → Option (List Char)
  | [], cs => some cs
  | _ :: _, [] => none
  | p :: ps, c :: cs => if toLowerC c = p then matchCI ps cs else none

/-- Consume greedy `\s*`, tracking the consumed count. -/
def eatWs (st : Nat × List Char) : Nat × List Char :=
  let w := st.2.takeWhile isSpaceB
  (st.1 + w.length, st.2.drop w.length)

/-- Consume a mandatory case-insensitive literal. -/
def eatCI (pat : List Char) (st : Nat × List Char) : Option (Nat × List Char) :=
  (matchCI pat st.2).map (fun r => (st.1 + pat.length, r))

/-- Consume an optional case-insensitive literal (`s?`, `(?:or)?`): since in
the header pattern the character classes on both sides are disjoint, taking
the literal when present is equivalent to the backtracking search. -/
def eatOptCI (pat : List Char) (st : Nat × List Char) : Nat × List Char :=
  match matchCI pat st.2 with
  | some r => (st.1 + pat.length, r)
  | none => st

/-- Consume greedy `\d+` (at least one digit), returning the digit group. -/
def eatDigits (st : Nat × List Char) : Option (List Char × Nat × List Char) :=
  let d := st.2.takeWhile isDigitB
  if d = [] then none else some (d, st.1 + d.length, st.2.drop d.length)

/-- Tail of the interval-header pattern after the mileage group:
`\s*miles?\s*(?:or)?\s*(\d+)\s*months?`.  Returns the months group and the
total consumed count including the mileage group. -/
def matchTail (g1len : Nat) (r : List Char) : Option (List Char × Nat) :=
  let s1 := eatWs (g1len, r)
  match eatCI "mile".toList s1 with
  | none => none
  | some s2 =>
    let s6 := eatWs (eatOptCI "or".toList (eatWs (eatOptCI "s".toList s2)))
    match eatDigits s6 with
    | none => none
    | some dcr =>
      let s8 := eatWs (dcr.2.1, dcr.2.2)
      match eatCI "month".toList s8 with
      | none => none
      | some s9 => some (dcr.1, (eatOptCI "s".toList s9).1)

/-- One alternative of the mileage group `(\d{1,3},?\d{3})`: exactly `k`
digits, then (when `useComma` is set) a comma, then exactly three digits.
Returns the group text, its length and the rest. -/
def parseG1 (useComma : Bool) (k : Nat) (cs : List Char) :
    Option (List Char × Nat × List Char) :=
  match takeExactDigits k cs with
  | none => none
  | some d1r =>
    if useComma then
      match d1r.2 with
      | ',' :: r2 =>
        (takeExactDigits 3 r2).map (fun d3r => (d1r.1 ++ ',' :: d3r.1, k + 4, d3r.2))
      | _ => none
    else
      (takeExactDigits 3 d1r.2).map (fun d3r => (d1r.1 ++ d3r.1, k + 3, d3r.2))

/-- Try one `(k, useComma)` alternative of the full header pattern at the
current position; on success return both capture groups and the total
consumed length. -/
def tryG1Variant (useComma : Bool) (k : Nat) (cs : List Char) :
    Option ((List Char × List Char) × Nat) :=
  match parseG1 useComma k cs with
  | none => none
  | some g1r => (matchTail g1r.2.1 g1r.2.2).map (fun g2t => ((g1r.1, g2t.1), g2t.2))

/-- Full interval-header matcher
`(\d{1,3},?\d{3})\s*miles?\s*(?:or)?\s*(\d+)\s*months?` (IGNORECASE) at one
position, in the backtracking order of the Python engine: the `\d{1,3}`
quantifier greedy from three digits down, the optional comma
present-first. -/
def matchIntervalTotal (cs : List Char) : Option ((List Char × List Char) × Nat) :=
  tryG1Variant true 3 cs <|> tryG1Variant false 3 cs <|>
  tryG1Variant true 2 cs <|> tryG1Variant false 2 cs <|>
  tryG1Variant true 1 cs <|> tryG1Variant false 1 cs

/-- Header matcher in the `(group, consumed - 1)` form shared by the
finditer driver. -/
def matchIntervalAt (cs : List Char) : Option ((List Char × List Char) × Nat) :=
  (matchIntervalTotal cs).map (fun gt => (gt.1, gt.2 - 1))

/-- All interval-header matches of a text: `(start, extra, (g1, g2))` where
the match spans `[start, start + extra + 1)`. -/
def finditerInterval (cs : List Char) : List (Nat × Nat × (List Char × List Char)) :=
  finditerAux matchIntervalAt (cs.length + 1) cs 0

/-- Ordered-dict insert with the Python semantics of
`sections[(miles, months)] = text`: an existing key keeps its position and
gets the new value, a new key is appended. -/
def insertSection (acc : List ((Nat × Nat) × List Char)) (k : Nat × Nat)
    (v : List Char) : List ((Nat × Nat) × List Char) :=
  match acc with
  | [] => [(k, v)]
  | kv :: rest =>
    if kv.1 = k then (kv.1, v) :: rest else kv :: insertSection rest k v

/-- First-match association lookup over the section dict. -/
def lookupSec (acc : List ((Nat × Nat) × List Char)) (k : Nat × Nat) :
    Option (List Char) :=
  match acc with
  | [] => none
  | kv :: rest => if kv.1 = k then some kv.2 else lookupSec rest k

/-- Walk the header matches of `_split_by_intervals`: for each match parse
the two integer groups (commas removed from the mileage; a failed parse
skips the header), slice the text from the end of the match to the start of
the next one (or the end of text), and insert into the section dict. -/
def sectionsOf (cs : List Char) :
    List (Nat × Nat × (List Char × List Char)) → List ((Nat × Nat) × List Char) →
    List ((Nat × Nat) × List Char)
  | [], acc => acc
  | m :: rest, acc =>
    let stop := m.1 + m.2.1 + 1
    let endPos := match rest with
      | [] => cs.length
      | m2 :: _ => m2.1
    let acc' := match parseNatQ (m.2.2.1.filter (fun c => !(c = ','))), parseNatQ m.2.2.2 with
      | some miles, some months => insertSection acc (miles, months) ((cs.take endPos).drop stop)
      | _, _ => acc
    sectionsOf cs rest acc'

/-- Model of `_split_by_intervals`. -/
def splitByIntervals (cs : List Char) : List ((Nat × Nat) × List Char) :=
  sectionsOf cs (finditerInterval cs) []

/-- Checkbox pass of `_extract_items`: clean each checkbox group, keep it
when non-empty and longer than three characters, with the default category
unless a condition is supplied (in which case `"special_condition"`). -/
def cbItems (cs : List Char) (defaultCategory : String) (condition : Option String) :
    List MaintenanceItem :=
  (finditerCb cs).filterMap (fun m =>
    let service := cleanServiceText m.2.2
    if service ≠ "" ∧ 3 < service.length then
      some { service := service,
             category := match condition with
               | none => defaultCategory
               | some _ => "special_condition",
             condition := condition }
    else none)

/-- Inspection pass of `_extract_items`: underscored groups always get
category `"inspection"`, and carry whatever condition was supplied. -/
def inspItems (cs : List Char) (condition : Option String) : List MaintenanceItem :=
  (finditerInsp cs).filterMap (fun m =>
    let service := cleanServiceText m.2.2
    if service ≠ "" ∧ 3 < service.length then
      some { service := service, category := "inspection", condition := condition }
    else none)

/-- Model of `_extract_items`: all checkbox items (one loop), then all
inspection items (a second loop). -/
def extractItems (cs : List Char) (defaultCategory : String)
    (condition : Option String) : List MaintenanceItem :=
  cbItems cs defaultCategory condition ++ inspItems cs condition

/-- The `SPECIAL_CONDITIONS` keyword table, in source (dict insertion)
order. -/
def SPECIAL_CONDITIONS : List (String × String) :=
  [("dusty", "dusty_roads"),
   ("dirt road", "dusty_roads"),
   ("towing", "towing"),
   ("car-top carrier", "towing"),
   ("heavy vehicle loading", "heavy_loading"),
   ("trips of less than five miles", "short_trips_cold"),
   ("temperatures below 32", "short_trips_cold"),
   ("extensive idling", "extensive_idling"),
   ("low speed driving", "extensive_idling"),
   ("police", "fleet_use"),
   ("taxi", "fleet_use"),
   ("door-to-door delivery", "fleet_use")]

/-- Keyword scan of one line: the first table entry (in table order) whose
keyword occurs in the lower-cased line. -/
def detectCondition (line : List Char) : Option String :=
  SPECIAL_CONDITIONS.findSome? (fun kv =>
    if containsSL kv.1.toList (line.map toLowerC) then some kv.2 else none)

/-- Loop body of `_parse_special_conditions`: given the current condition
and line buffer, process one line.  A newly recognized, different condition
flushes the buffer (only when a condition was already current and the buffer
is non-empty) and starts a new buffer with this line; any other line is
appended to the buffer. -/
def processLine (st : Option String × List (List Char)) (line : List Char) :
    (Option String × List (List Char)) × List MaintenanceItem :=
  match detectCondition line with
  | none => ((st.1, st.2 ++ [line]), [])
  | some c =>
    if some c = st.1 then ((st.1, st.2 ++ [line]), [])
    else
      ((some c, [line]),
       match st.1 with
       | none => []
       | some p =>
         if st.2 = [] then []
         else extractItems (joinLines st.2) "special_condition" (some p))

/-- Final flush of `_parse_special_conditions` after the loop. -/
def finalFlush (st : Option String × List (List Char)) : List MaintenanceItem :=
  match st.1 with
  | none => []
  | some p =>
    if st.2 = [] then []
    else extractItems (joinLines st.2) "special_condition" (some p)

/-- Run the condition-resolution loop over the remaining lines. -/
def runLines (st : Option String × List (List Char)) :
    List (List Char) → List MaintenanceItem
  | [] => finalFlush st
  | l :: ls =>
    let pr := processLine st l
    pr.2 ++ runLines pr.1 ls

/-- Model of `_parse_special_conditions`. -/
def parseSpecialConditions (cs : List Char) : List MaintenanceItem :=
  runLines (none, []) (splitLines cs)

/-- The literal section marker searched by `_parse_items`. -/
def SPECIAL_MARKER : List Char := "Special Operating Conditions".toList

/-- Model of `_parse_items`: when the marker occurs, standard extraction on
the text before it and condition resolution on the text after it; otherwise
standard extraction on the whole chunk. -/
def parseItems (cs : List Char) : List MaintenanceItem :=
  match splitOnceAt SPECIAL_MARKER cs with
  | some pr => extractItems pr.1 "standard" none ++ parseSpecialConditions pr.2
  | none => extractItems cs "standard" none

/-- Build one interval from a section-dict entry, dropping it when no items
were extracted (`if interval.items:` in the source). -/
def mkInterval (kv : (Nat × Nat) × List Char) : Option MaintenanceInterval :=
  let items := parseItems kv.2
  if items = [] then none
  else some { interval_miles := kv.1.1, interval_months := kv.1.2, items := items }

/-- Stable insertion step for sorting by mileage: walk past every element
whose mileage is not greater, as Python `sorted` (stable) does. -/
def insertByMiles (x : MaintenanceInterval) :
    List MaintenanceInterval → List MaintenanceInterval
  | [] => [x]
  | y :: ys =>
    if y.interval_miles ≤ x.interval_miles then y :: insertByMiles x ys
    else x :: y :: ys

/-- Stable sort by `interval_miles`, modelling
`sorted(intervals, key=lambda x: x.interval_miles)`. -/
def sortByMiles (l : List MaintenanceInterval) : List MaintenanceInterval :=
  l.foldl (fun acc x => insertByMiles x acc) []

/-- Model of `_parse_intervals`: split into sections, build the non-empty
intervals in section order, sort by mileage. -/
def parseIntervals (text : String) : List MaintenanceInterval :=
  sortByMiles ((splitByIntervals text.toList).filterMap mkInterval)

/-- Model of `MaintenancePDFParser.parse`.  Reading the PDF happens outside
the core, so the outcome of `_extract_text` is a parameter: `Except.error`
stands for any exception raised during extraction, in which case the
`try/except` of the source leaves `intervals` empty.  The returned schedule
always carries make `"Toyota"` and the supplied model, year and path. -/
def parse (extractResult : Except String String) (model : String) (year : Int)
    (pdf_path : String) : MaintenanceSchedule :=
  { make := "Toyota",
    model := model,
    year := year,
    source_pdf := some pdf_path,
    intervals := match extractResult with
      | .ok text => parseIntervals text
      | .error _ => [] }

end MaintenancePdf

namespace ToyotaPdf

/-- Single maintenance item of `toyota_pdf.py` (`name`, `required`,
`special_conditions`). -/
structure MaintenanceItem where
  name : String
  required : Bool := true
  special_conditions : Option String := none
deriving DecidableEq

/-- Interval of `toyota_pdf.py`. -/
structure MaintenanceInterval where
  mileage : Nat
  months : Nat
  items : List MaintenanceItem
  special_operating_items : List MaintenanceItem
deriving DecidableEq

/-- Schedule of `toyota_pdf.py`; `scraped_at` is the serialized wall-clock
timestamp the source stores at construction time. -/
structure MaintenanceSchedule where
  source : String
  model : String
  year : Int
  intervals : List MaintenanceInterval
  source_url : String
  scraped_at : String
deriving DecidableEq

/-- The `MILEAGE_INTERVALS` table. -/
def MILEAGE_INTERVALS : List (Nat × Nat) :=
  [(5000, 6), (10000, 12), (15000, 18), (20000, 24), (25000, 30),
   (30000, 36), (35000, 42), (40000, 48), (45000, 54), (50000, 60),
   (55000, 66), (60000, 72), (65000, 78), (70000, 84), (75000, 90),
   (80000, 96), (85000, 102), (90000, 108), (95000, 114), (100000, 120),
   (105000, 126), (110000, 132), (115000, 138), (120000, 144)]

/-- Item list of one fallback interval, following the loop body of
`get_standard_schedule` literally: baseline items, oil/cabin-filter at
multiples of 10k (oil inserted at the front, cabin filter appended), the
30k inspections, the 60k major service, coolant at 100k and the four-
cylinder spark plugs at 120k. -/
def standardItemsFor (mileage : Nat) : List MaintenanceItem :=
  let items : List MaintenanceItem :=
    [{ name := "Rotate tires" },
     { name := "Inspect wiper blades" },
     { name := "Inspect and adjust all fluid levels" },
     { name := "Visually inspect brake system" },
     { name := "Check installation of driver\x27s floor mat" }]
  let items := if mileage % 10000 = 0 then
      ({ name := "Replace engine oil and oil filter" } : MaintenanceItem) ::
        (items ++ [{ name := "Replace cabin air filter" }])
    else items
  let items := if mileage % 30000 = 0 then
      items ++
        [{ name := "Replace engine air filter" },
         { name := "Inspect drive shaft boots" },
         { name := "Inspect ball joints and dust covers" },
         { name := "Inspect fuel system" }]
    else items
  let items := if mileage % 60000 = 0 then
      items ++
        [{ name := "Inspect drive belts" },
         { name := "Replace spark plugs (V6 only)" }]
    else items
  let items := if mileage = 100000 then
      items ++ [{ name := "Replace engine coolant" }]
    else items
  let items := if mileage = 120000 then
      items ++ [{ name := "Replace spark plugs" }]
    else items
  items

/-- The interval list built by the loop of `get_standard_schedule`; it
depends on nothing but the mileage table. -/
def stdIntervals : List MaintenanceInterval :=
  MILEAGE_INTERVALS.map (fun p =>
    { mileage := p.1, months := p.2, items := standardItemsFor p.1,
      special_operating_items := [] })

/-- Model of `ToyotaPDFParser.get_standard_schedule`.  The source stamps the
result with `datetime.utcnow().isoformat() + "Z"`; the wall clock is outside
the program, so the isoformat string of the invocation instant is the
parameter `now`. -/
def get_standard_schedule (model : String) (year : Int) (url : String)
    (now : String) : MaintenanceSchedule :=
  { source := "toyota-standard",
    model := model,
    year := year,
    intervals := stdIntervals,
    source_url := url,
    scraped_at := now ++ "Z" }

end ToyotaPdf

namespace MaintenancePdf

theorem insertByMiles_perm (x : MaintenanceInterval) (l : List MaintenanceInterval) :
    (insertByMiles x l).Perm (x :: l) := by
  induction l with
  | nil => simp [insertByMiles]
  | cons y ys ih =>
    rw [insertByMiles]
    split
    · exact (ih.cons y).trans (List.Perm.swap x y ys)
    · exact List.Perm.refl _

theorem sortFold_perm (l : List MaintenanceInterval) :
    ∀ acc, (l.foldl (fun acc x => insertByMiles x acc) acc).Perm (acc ++ l) := by
  induction l with
  | nil => intro acc; simp
  | cons x xs ih =>
    intro acc
    exact (ih (insertByMiles x acc)).trans
      (((insertByMiles_perm x acc).append_right xs).trans List.perm_middle.symm)

theorem sortByMiles_perm (l : List MaintenanceInterval) : (sortByMiles l).Perm l :=
  sortFold_perm l []

theorem mem_insertByMiles {b x : MaintenanceInterval} {l : List MaintenanceInterval}
    (h : b ∈ insertByMiles x l) : b = x ∨ b ∈ l := by
  have := (insertByMiles_perm x l).mem_iff.mp h
  simpa using this

theorem insertByMiles_sorted {x : MaintenanceInterval} {l : List MaintenanceInterval}
    (h : l.Pairwise (fun a b => a.interval_miles ≤ b.interval_miles)) :
    (insertByMiles x l).Pairwise (fun a b => a.interval_miles ≤ b.interval_miles) := by
  induction l with
  | nil => simp [insertByMiles]
  | cons y ys ih =>
    rcases List.pairwise_cons.mp h with ⟨hy, hys⟩
    rw [insertByMiles]
    split
    · refine List.pairwise_cons.mpr ⟨?_, ih hys⟩
      intro b hb
      rcases mem_insertByMiles hb with rfl | hb
      · assumption
      · exact hy b hb
    · refine List.pairwise_cons.mpr ⟨?_, h⟩
      intro b hb
      have hxy : x.interval_miles ≤ y.interval_miles := le_of_not_le (by assumption)
      rcases List.mem_cons.mp hb with rfl | hb
      · exact hxy
      · exact le_trans hxy (hy b hb)

theorem sortFold_sorted (l : List MaintenanceInterval) :
    ∀ acc, acc.Pairwise (fun a b => a.interval_miles ≤ b.interval_miles) →
      (l.foldl (fun acc x => insertByMiles x acc) acc).Pairwise
        (fun a b => a.interval_miles ≤ b.interval_miles) := by
  induction l with
  | nil => intro acc h; exact h
  | cons x xs ih => intro acc h; exact ih _ (insertByMiles_sorted h)

theorem sortByMiles_sorted (l : List MaintenanceInterval) :
    (sortByMiles l).Pairwise (fun a b => a.interval_miles ≤ b.interval_miles) :=
  sortFold_sorted l [] (List.Pairwise.nil)

theorem insertSection_key_mem {acc : List ((Nat × Nat) × List Char)}
    {k : Nat × Nat} {v : List Char} {b : (Nat × Nat) × List Char}
    (h : b ∈ insertSection acc k v) : b.1 ∈ acc.map Prod.fst ∨ b.1 = k := by
  induction acc with
  | nil =>
    simp only [insertSection, List.mem_singleton] at h
    simp [h]
  | cons kv rest ih =>
    rw [insertSection] at h
    split at h
    · rcases List.mem_cons.mp h with rfl | hb
      · simp
      · exact Or.inl (by simp [List.mem_cons.mpr (Or.inr (List.mem_map_of_mem Prod.fst hb))])
    · rcases List.mem_cons.mp h with rfl | hb
      · simp
      · rcases ih hb with hk | hk
        · exact Or.inl (by simp [hk])
        · exact Or.inr hk

theorem insertSection_distinct {acc : List ((Nat × Nat) × List Char)}
    {k : Nat × Nat} {v : List Char}
    (h : acc.Pairwise (fun a b => a.1 ≠ b.1)) :
    (insertSection acc k v).Pairwise (fun a b => a.1 ≠ b.1) := by
  induction acc with
  | nil => simp [insertSection]
  | cons kv rest ih =>
    rcases List.pairwise_cons.mp h with ⟨hk, hrest⟩
    rw [insertSection]
    split
    · exact List.pairwise_cons.mpr ⟨hk, hrest⟩
    · refine List.pairwise_cons.mpr ⟨?_, ih hrest⟩
      intro b hb
      rcases insertSection_key_mem hb with hmem | hbk
      · rcases List.mem_map.mp hmem with ⟨a, ha, hfst⟩
        exact hfst ▸ hk a ha
      · rw [hbk]; assumption

theorem lookupSec_insertSection (acc : List ((Nat × Nat) × List Char))
    (k : Nat × Nat) (v : List Char) :
    lookupSec (insertSection acc k v) k = some v := by
  induction acc with
  | nil => simp [insertSection, lookupSec]
  | cons kv rest ih =>
    rw [insertSection]
    split
    · rw [lookupSec]; simp_all
    · rw [lookupSec]; simp_all

theorem sectionsOf_distinct (cs : List Char)
    (ms : List (Nat × Nat × (List Char × List Char))) :
    ∀ acc, acc.Pairwise (fun a b => a.1 ≠ b.1) →
      (sectionsOf cs ms acc).Pairwise (fun a b => a.1 ≠ b.1) := by
  induction ms with
  | nil => intro acc h; exact h
  | cons m rest ih =>
    intro acc h
    simp only [sectionsOf]
    cases h1 : parseNatQ (m.2.2.1.filter (fun c => !(c = ','))) <;>
      cases h2 : parseNatQ m.2.2.2 <;> simp only [h1, h2]
    · exact ih acc h
    · exact ih acc h
    · exact ih acc h
    · exact ih _ (insertSection_distinct h)

theorem splitByIntervals_distinct (cs : List Char) :
    (splitByIntervals cs).Pairwise (fun a b => a.1 ≠ b.1) :=
  sectionsOf_distinct cs (finditerInterval cs) [] List.Pairwise.nil

theorem mkInterval_eq_some {kv : (Nat × Nat) × List Char} {iv : MaintenanceInterval}
    (h : mkInterval kv = some iv) :
    iv.interval_miles = kv.1.1 ∧ iv.interval_months = kv.1.2 ∧
      iv.items = parseItems kv.2 ∧ parseItems kv.2 ≠ [] := by
  rw [mkInterval] at h
  split at h
  · exact absurd h (by simp)
  · rcases Option.some.inj h with rfl
    exact ⟨rfl, rfl, rfl, by assumption⟩

theorem pairwise_keys_filterMap {secs : List ((Nat × Nat) × List Char)}
    (h : secs.Pairwise (fun a b => a.1 ≠ b.1)) :
    (secs.filterMap mkInterval).Pairwise (fun a b =>
      (a.interval_miles, a.interval_months) ≠ (b.interval_miles, b.interval_months)) := by
  induction secs with
  | nil => simp
  | cons kv rest ih =>
    rcases List.pairwise_cons.mp h with ⟨hk, hrest⟩
    rw [List.filterMap_cons]
    cases hmk : mkInterval kv with
    | none => exact ih hrest
    | some iv =>
      refine List.pairwise_cons.mpr ⟨?_, ih hrest⟩
      intro b hb
      rcases List.mem_filterMap.mp hb with ⟨kv2, hkv2, hmk2⟩
      rcases mkInterval_eq_some hmk with ⟨h1, h2, _, _⟩
      rcases mkInterval_eq_some hmk2 with ⟨h3, h4, _, _⟩
      rw [h1, h2, h3, h4]
      intro hcontra
      apply hk kv2 hkv2
      have := Prod.mk.injEq (kv.1.1) (kv.1.2) (kv2.1.1) (kv2.1.2) ▸ hcontra
      rcases Prod.mk.inj hcontra with ⟨e1, e2⟩
      exact Prod.ext e1 e2

theorem mem_cbItems {cs : List Char} {cat : String} {cond : Option String}
    {it : MaintenanceItem} (h : it ∈ cbItems cs cat cond) :
    it.condition = cond ∧
      it.category = cond.elim cat (fun _ => "special_condition") := by
  rcases List.mem_filterMap.mp h with ⟨m, _, hm⟩
  dsimp only at hm
  split at hm
  · rcases Option.some.inj hm with rfl
    cases cond <;> exact ⟨rfl, rfl⟩
  · exact absurd hm (by simp)

theorem mem_inspItems {cs : List Char} {cond : Option String}
    {it : MaintenanceItem} (h : it ∈ inspItems cs cond) :
    it.condition = cond ∧ it.category = "inspection" := by
  rcases List.mem_filterMap.mp h with ⟨m, _, hm⟩
  dsimp only at hm
  split at hm
  · rcases Option.some.inj hm with rfl
    exact ⟨rfl, rfl⟩
  · exact absurd hm (by simp)

theorem mem_extractItems {cs : List Char} {cat : String} {cond : Option String}
    {it : MaintenanceItem} (h : it ∈ extractItems cs cat cond) :
    it.condition = cond ∧
      (it.category = "inspection" ∨
        it.category = cond.elim cat (fun _ => "special_condition")) := by
  rcases List.mem_append.mp h with hcb | hinsp
  · rcases mem_cbItems hcb with ⟨h1, h2⟩
    exact ⟨h1, Or.inr h2⟩
  · rcases mem_inspItems hinsp with ⟨h1, h2⟩
    exact ⟨h1, Or.inl h2⟩

theorem mem_finalFlush {st : Option String × List (List Char)} {it : MaintenanceItem}
    (h : it ∈ finalFlush st) :
    ∃ p b, it ∈ extractItems b "special_condition" (some p) := by
  obtain ⟨cur, block⟩ := st
  rcases cur with _ | p
  · simp [finalFlush] at h
  · simp only [finalFlush] at h
    split at h
    · exact absurd h (by simp)
    · exact ⟨p, joinLines block, h⟩

theorem mem_processLine_out {st : Option String × List (List Char)} {line : List Char}
    {it : MaintenanceItem} (h : it ∈ (processLine st line).2) :
    ∃ p b, it ∈ extractItems b "special_condition" (some p) := by
  obtain ⟨cur, block⟩ := st
  rcases hdet : detectCondition line with _ | c
  · simp [processLine, hdet] at h
  · simp only [processLine, hdet] at h
    split at h
    · simp at h
    · rcases cur with _ | p
      · simp at h
      · simp only at h
        split at h
        · exact absurd h (by simp)
        · exact ⟨p, joinLines block, h⟩

theorem mem_runLines {ls : List (List Char)} :
    ∀ {st : Option String × List (List Char)} {it : MaintenanceItem},
      it ∈ runLines st ls →
      ∃ p b, it ∈ extractItems b "special_condition" (some p) := by
  induction ls with
  | nil => intro st it h; exact mem_finalFlush h
  | cons l ls ih =>
    intro st it h
    rw [runLines] at h
    rcases List.mem_append.mp h with hout | hrest
    · exact mem_processLine_out hout
    · exact ih hrest

theorem mem_parseItems {cs : List Char} {it : MaintenanceItem}
    (h : it ∈ parseItems cs) :
    (∃ t, it ∈ extractItems t "standard" none) ∨
      ∃ p b, it ∈ extractItems b "special_condition" (some p) := by
  rw [parseItems] at h
  rcases hsp : splitOnceAt SPECIAL_MARKER cs with _ | pr
  · rw [hsp] at h; exact Or.inl ⟨cs, h⟩
  · rw [hsp] at h
    rcases List.mem_append.mp h with hstd | hspec
    · exact Or.inl ⟨pr.1, hstd⟩
    · exact Or.inr (mem_runLines hspec)

theorem runLines_none_blocks (ls : List (List Char)) :
    ∀ b₁ b₂, runLines (none, b₁) ls = runLines (none, b₂) ls := by
  induction ls with
  | nil => intro b₁ b₂; rfl
  | cons l ls ih =>
    intro b₁ b₂
    rw [runLines, runLines]
    rcases hdet : detectCondition l with _ | c
    · simp only [processLine, hdet]
      exact ih (b₁ ++ [l]) (b₂ ++ [l])
    · simp [processLine, hdet]

theorem finditerAux_pos_le {α : Type} (m : List Char → Option (α × Nat)) :
    ∀ (fuel : Nat) (cs : List Char) (pos : Nat) (x : Nat × Nat × α),
      x ∈ finditerAux m fuel cs pos → pos ≤ x.1 := by
  intro fuel
  induction fuel with
  | zero => intro cs pos x hx; simp [finditerAux] at hx
  | succ fuel ih =>
    intro cs pos x hx
    cases cs with
    | nil => simp [finditerAux] at hx
    | cons c rest =>
      rw [finditerAux] at hx
      rcases hm : m (c :: rest) with _ | ge
      · rw [hm] at hx
        exact le_trans (Nat.le_succ pos) (ih rest (pos + 1) x hx)
      · rw [hm] at hx
        rcases List.mem_cons.mp hx with rfl | hx
        · exact le_refl _
        · have := ih (rest.drop ge.2) (pos + ge.2 + 1) x hx
          omega

theorem finditerAux_pos_sorted {α : Type} (m : List Char → Option (α × Nat)) :
    ∀ (fuel : Nat) (cs : List Char) (pos : Nat),
      (finditerAux m fuel cs pos).Pairwise (fun a b => a.1 < b.1) := by
  intro fuel
  induction fuel with
  | zero => intro cs pos; simp [finditerAux]
  | succ fuel ih =>
    intro cs pos
    cases cs with
    | nil => simp [finditerAux]
    | cons c rest =>
      rw [finditerAux]
      rcases hm : m (c :: rest) with _ | ge
      · exact ih rest (pos + 1)
      · refine List.pairwise_cons.mpr ⟨?_, ih _ _⟩
        intro b hb
        have := finditerAux_pos_le m fuel (rest.drop ge.2) (pos + ge.2 + 1) b hb
        simp only
        omega

theorem splitWsAux_nospace :
    ∀ (cs acc : List Char), (∀ c ∈ acc, isSpaceB c = false) →
      ∀ w ∈ splitWsAux acc cs, ∀ c ∈ w, isSpaceB c = false := by
  intro cs
  induction cs with
  | nil =>
    intro acc hacc w hw
    rw [splitWsAux] at hw
    split at hw
    · simp at hw
    · rcases List.mem_singleton.mp hw with rfl
      exact hacc
  | cons c cs ih =>
    intro acc hacc w hw
    rw [splitWsAux] at hw
    split at hw
    · split at hw
      · exact ih [] (by simp) w hw
      · rcases List.mem_cons.mp hw with rfl | hw
        · exact hacc
        · exact ih [] (by simp) w hw
    · refine ih (acc ++ [c]) ?_ w hw
      intro d hd
      rcases List.mem_append.mp hd with hd | hd
      · exact hacc d hd
      · rcases List.mem_singleton.mp hd with rfl
        simp_all

theorem joinWith_space_mem :
    ∀ (ws : List (List Char)), (∀ w ∈ ws, ∀ c ∈ w, isSpaceB c = false) →
      ∀ c ∈ joinWith [' '] ws, isSpaceB c = false ∨ c = ' ' := by
  intro ws
  induction ws with
  | nil => intro _ c hc; simp [joinWith] at hc
  | cons w ws ih =>
    intro hws c hc
    cases ws with
    | nil =>
      rw [joinWith] at hc
      exact Or.inl (hws w (by simp) c hc)
    | cons w2 ws2 =>
      rw [joinWith] at hc
      · rcases List.mem_append.mp hc with hc | hc
        · rcases List.mem_append.mp hc with hc | hc
          · exact Or.inl (hws w (by simp) c hc)
          · rcases List.mem_singleton.mp hc with rfl
            exact Or.inr rfl
        · refine ih ?_ c hc
          intro w3 hw3
          exact hws w3 (List.mem_cons.mpr (Or.inr hw3))
      · simp

theorem collapseWs_space (cs : List Char) :
    (collapseWs cs).all (fun c => !isSpaceB c || c = ' ') = true := by
  refine List.all_eq_true.mpr ?_
  intro c hc
  have := joinWith_space_mem (splitWsAux [] cs)
    (splitWsAux_nospace cs [] (by simp)) c hc
  rcases this with h | h <;> simp [h]

end MaintenancePdf

set_option maxRecDepth 4000

/-- Claim C9: parsing the empty input returns an empty interval list, and any
input in which the interval-header scanner finds no match behaves
identically; no interval is produced and no failure occurs. -/
theorem c9_empty_input :
    MaintenancePdf.parseIntervals "" = [] ∧
    ∀ text : String, MaintenancePdf.finditerInterval text.toList = [] →
      MaintenancePdf.parseIntervals text = [] := by
  constructor
  · rfl
  · intro text h
    unfold MaintenancePdf.parseIntervals MaintenancePdf.splitByIntervals
    rw [h]
    rfl

/-- Witness for C9: a concrete header-free text parses to the empty list. -/
theorem c9_empty_input_witness : MaintenancePdf.parseIntervals "no headers here" = [] :=
  c9_empty_input.2 "no headers here" (by decide)

/-- Claim C10: the public parse entry point never fails: whatever the outcome
of text extraction (modelled by the `Except` argument), the result carries
make `"Toyota"` and the supplied model, year and path, and the intervals are
empty whenever extraction raised. -/
theorem c10_parse_never_raises :
    ∀ (res : Except String String) (model : String) (year : Int) (path : String),
      (MaintenancePdf.parse res model year path).make = "Toyota" ∧
      (MaintenancePdf.parse res model year path).model = model ∧
      (MaintenancePdf.parse res model year path).year = year ∧
      (MaintenancePdf.parse res model year path).source_pdf = some path ∧
      ∀ e, res = Except.error e →
        (MaintenancePdf.parse res model year path).intervals = [] := by
  intro res model year path
  refine ⟨rfl, rfl, rfl, rfl, ?_⟩
  intro e he
  subst he
  rfl

/-- Witness for C10: a failed extraction yields the empty Toyota schedule for
the supplied arguments. -/
theorem c10_parse_never_raises_witness :
    (MaintenancePdf.parse (Except.error "unreadable") "Camry" 2024 "a.pdf").intervals = [] ∧
    (MaintenancePdf.parse (Except.error "unreadable") "Camry" 2024 "a.pdf").make = "Toyota" :=
  ⟨(c10_parse_never_raises (Except.error "unreadable") "Camry" 2024 "a.pdf").2.2.2.2
      "unreadable" rfl,
   (c10_parse_never_raises (Except.error "unreadable") "Camry" 2024 "a.pdf").1⟩

/-- Claim C4, counterexample: the fallback generator is not byte-identical
across runs, because the result embeds the wall-clock `scraped_at` stamp;
two invocations with identical `(model, year, url)` at different instants
differ. -/
theorem c4_counterexample :
    ToyotaPdf.get_standard_schedule "Camry" 2024 "" "2024-05-01T00:00:00" ≠
      ToyotaPdf.get_standard_schedule "Camry" 2024 "" "2024-05-02T00:00:00" := by
  intro h
  exact absurd (congrArg ToyotaPdf.MaintenanceSchedule.scraped_at h) (by decide)

/-- Claim C4 (amended): the fallback generator is deterministic in every
field except the `scraped_at` timestamp: for identical `(model, year, url)`
the source, model, year, intervals and url of two invocations coincide
whatever the two invocation instants were. -/
theorem c4_determinism_amended :
    ∀ (model : String) (year : Int) (url t₁ t₂ : String),
      (ToyotaPdf.get_standard_schedule model year url t₁).source =
        (ToyotaPdf.get_standard_schedule model year url t₂).source ∧
      (ToyotaPdf.get_standard_schedule model year url t₁).model =
        (ToyotaPdf.get_standard_schedule model year url t₂).model ∧
      (ToyotaPdf.get_standard_schedule model year url t₁).year =
        (ToyotaPdf.get_standard_schedule model year url t₂).year ∧
      (ToyotaPdf.get_standard_schedule model year url t₁).intervals =
        (ToyotaPdf.get_standard_schedule model year url t₂).intervals ∧
      (ToyotaPdf.get_standard_schedule model year url t₁).source_url =
        (ToyotaPdf.get_standard_schedule model year url t₂).source_url := by
  intro model year url t₁ t₂
  exact ⟨rfl, rfl, rfl, rfl, rfl⟩

/-- Claim C6: in every fallback schedule, every interval carries the five
baseline items; every interval at a multiple of 30,000 additionally carries
the air-filter replacement and the drive-shaft-boot, ball-joint and
fuel-system inspections; the 100,000-mile interval carries the coolant
replacement and the 120,000-mile interval the four-cylinder spark-plug
replacement (both intervals exist). -/
theorem c6_fallback_contents :
    ∀ (model : String) (year : Int) (url now : String),
      ((ToyotaPdf.get_standard_schedule model year url now).intervals.all fun iv =>
        ((["Rotate tires", "Inspect wiper blades", "Inspect and adjust all fluid levels",
           "Visually inspect brake system",
           "Check installation of driver\x27s floor mat"] : List String).all fun n =>
             (iv.items.map ToyotaPdf.MaintenanceItem.name).contains n)
        && (!(iv.mileage % 30000 == 0) ||
            ((["Replace engine air filter", "Inspect drive shaft boots",
               "Inspect ball joints and dust covers", "Inspect fuel system"] :
                List String).all fun n =>
                  (iv.items.map ToyotaPdf.MaintenanceItem.name).contains n))
        && (!(iv.mileage == 100000) ||
            (iv.items.map ToyotaPdf.MaintenanceItem.name).contains "Replace engine coolant")
        && (!(iv.mileage == 120000) ||
            (iv.items.map ToyotaPdf.MaintenanceItem.name).contains "Replace spark plugs")) = true
      ∧ ((ToyotaPdf.get_standard_schedule model year url now).intervals.any
          fun iv => iv.mileage == 100000) = true
      ∧ ((ToyotaPdf.get_standard_schedule model year url now).intervals.any
          fun iv => iv.mileage == 120000) = true := by
  intro model year url now
  have h : (ToyotaPdf.get_standard_schedule model year url now).intervals =
      ToyotaPdf.stdIntervals := rfl
  rw [h]
  refine ⟨?_, ?_, ?_⟩ <;> decide

/-- Claim C1, counterexample: an underscored item inside a
special-operating-conditions sub-block is produced with category
`"inspection"` and a non-`none` condition tag, so the claimed invariant
`category ≠ special_condition → condition = none` fails. -/
theorem c1_counterexample :
    (MaintenancePdf.parseIntervals
        "1000 miles or 1 months Special Operating Conditions\ndusty\n_ tires ok\n").map
        (fun iv => (iv.interval_miles, iv.interval_months,
          iv.items.map (fun it => (it.service, it.category, it.condition)))) =
      [(1000, 1, [("tires ok", "inspection", some "dusty_roads")])] ∧
    ¬ (∀ iv ∈ MaintenancePdf.parseIntervals
          "1000 miles or 1 months Special Operating Conditions\ndusty\n_ tires ok\n",
        ∀ it ∈ iv.items, it.category ≠ "special_condition" → it.condition = none) := by
  constructor
  · rfl
  · decide

/-- Claim C2, counterexample: two headers with the same mileage but
different month values are kept as distinct sections (the dict key is the
full pair), so the final list contains two intervals with the same mileage
and is not unique by mileage. -/
theorem c2_counterexample :
    (MaintenancePdf.parseIntervals
        "1000 miles or 1 months\n■ tires ok\n1000 miles or 2 months\n■ brake ok\n").map
        (fun iv => (iv.interval_miles, iv.interval_months)) = [(1000, 1), (1000, 2)] ∧
    ¬ ((MaintenancePdf.parseIntervals
          "1000 miles or 1 months\n■ tires ok\n1000 miles or 2 months\n■ brake ok\n").Pairwise
        (fun a b => a.interval_miles ≠ b.interval_miles)) := by
  constructor
  · rfl
  · decide

/-- Claim C3, counterexample: when two triples with the same mileage reach
assembly, no `DuplicateIntervalError` exists to be raised — the source has
no such check — and a two-interval schedule is produced silently. -/
theorem c3_counterexample :
    (MaintenancePdf.parseIntervals
        "2000 miles or 1 months\n■ plugs ok\n2000 miles or 2 months\n■ belts ok\n").map
        (fun iv => (iv.interval_miles, iv.items.map (fun it => it.service))) =
      [(2000, ["plugs ok"]), (2000, ["belts ok"])] := by
  rfl

/-- Claim C5, counterexample: the `"Date:"` footer label is not stripped,
because only the first two noise patterns (`noise_patterns[:-3]`) are ever
applied by the source; the claimed output `"tires"` differs from the actual
output. -/
theorem c5_counterexample :
    MaintenancePdf.cleanServiceText "tires Date: 9".toList = "tires Date: 9" ∧
    MaintenancePdf.cleanServiceText "tires Date: 9".toList ≠ "tires" := by
  constructor
  · rfl
  · decide

/-- Claim C8, counterexample: an underscore marker at position 0 precedes a
checkbox marker at position 11, yet the extracted list puts the checkbox
item first — the extractor runs the two marker passes sequentially rather
than by document position. -/
theorem c8_counterexample :
    MaintenancePdf.extractItems "_ brake ok\n■ tires ok\n".toList "standard" none =
      [{ service := "tires ok", category := "standard", condition := none },
       { service := "brake ok", category := "inspection", condition := none }] ∧
    (MaintenancePdf.finditerInsp "_ brake ok\n■ tires ok\n".toList).map
      (fun m => m.1) = [0] ∧
    (MaintenancePdf.finditerCb "_ brake ok\n■ tires ok\n".toList).map
      (fun m => m.1) = [11] := by
  refine ⟨rfl, rfl, rfl⟩

/-- Claim C1 (amended): for every parsed document, an item whose category is
neither `"special_condition"` nor `"inspection"` carries no condition tag;
inspection items extracted inside a special-operating-conditions sub-block
do carry the governing condition, which is the one deviation from the
original claim. -/
theorem c1_condition_invariant_amended :
    ∀ (text : String), ∀ iv ∈ MaintenancePdf.parseIntervals text, ∀ it ∈ iv.items,
      it.category ≠ "special_condition" → it.category ≠ "inspection" →
        it.condition = none := by
  intro text iv hiv it hit h1 h2
  rw [MaintenancePdf.parseIntervals] at hiv
  have hmem := (MaintenancePdf.sortByMiles_perm _).mem_iff.mp hiv
  rcases List.mem_filterMap.mp hmem with ⟨kv, _, hmk⟩
  rcases MaintenancePdf.mkInterval_eq_some hmk with ⟨_, _, hitems, _⟩
  rw [hitems] at hit
  rcases MaintenancePdf.mem_parseItems hit with ⟨t, hstd⟩ | ⟨p, b, hspec⟩
  · exact (MaintenancePdf.mem_extractItems hstd).1
  · rcases MaintenancePdf.mem_extractItems hspec with ⟨_, hcat | hcat⟩
    · exact absurd hcat h2
    · exact absurd hcat h1

/-- Witness for C1 (amended): a concrete standard item of a parsed document
has no condition tag. -/
theorem c1_condition_invariant_amended_witness :
    (⟨"good tires", "standard", none⟩ : MaintenancePdf.MaintenanceItem).condition = none :=
  c1_condition_invariant_amended "1000 miles or 3 months\n■ good tires\n"
    ⟨1000, 3, [⟨"good tires", "standard", none⟩]⟩ (by decide)
    ⟨"good tires", "standard", none⟩ (by decide) (by decide) (by decide)

/-- Claim C2 (amended): replacement on duplicate headers happens exactly on
the full `(mileage, months)` key — the section dict maps the later value
over the earlier at an equal key — and the final interval list is ascending
(not strictly) by mileage and unique by the `(mileage, months)` pair; two
intervals may share a mileage when their month values differ. -/
theorem c2_intervals_sorted_unique_amended :
    (∀ text : String,
      (MaintenancePdf.parseIntervals text).Pairwise
        (fun a b => a.interval_miles ≤ b.interval_miles) ∧
      (MaintenancePdf.parseIntervals text).Pairwise
        (fun a b =>
          (a.interval_miles, a.interval_months) ≠ (b.interval_miles, b.interval_months))) ∧
    (∀ (acc : List ((Nat × Nat) × List Char)) (k : Nat × Nat) (v : List Char),
      MaintenancePdf.lookupSec (MaintenancePdf.insertSection acc k v) k = some v) := by
  constructor
  · intro text
    constructor
    · exact MaintenancePdf.sortByMiles_sorted _
    · have hkeys := MaintenancePdf.pairwise_keys_filterMap
        (MaintenancePdf.splitByIntervals_distinct text.toList)
      rw [MaintenancePdf.parseIntervals]
      exact ((MaintenancePdf.sortByMiles_perm _).pairwise_iff
        (fun hab e => hab e.symm)).mpr hkeys
  · exact MaintenancePdf.lookupSec_insertSection

/-- Claim C3 (amended): assembly never fails — the source has no
`DuplicateIntervalError` — and every section whose chunk yields at least one
item appears in the final list with its mileage, months and items, duplicate
mileages included. -/
theorem c3_assembly_total_amended :
    ∀ (text : String) (kv : (Nat × Nat) × List Char),
      kv ∈ MaintenancePdf.splitByIntervals text.toList →
      MaintenancePdf.parseItems kv.2 ≠ [] →
      ∃ iv ∈ MaintenancePdf.parseIntervals text,
        iv.interval_miles = kv.1.1 ∧ iv.interval_months = kv.1.2 ∧
          iv.items = MaintenancePdf.parseItems kv.2 := by
  intro text kv hkv hne
  have hmk : MaintenancePdf.mkInterval kv =
      some ⟨kv.1.1, kv.1.2, MaintenancePdf.parseItems kv.2⟩ := by
    rw [MaintenancePdf.mkInterval]
    simp [hne]
  refine ⟨⟨kv.1.1, kv.1.2, MaintenancePdf.parseItems kv.2⟩, ?_, rfl, rfl, rfl⟩
  rw [MaintenancePdf.parseIntervals]
  exact (MaintenancePdf.sortByMiles_perm _).mem_iff.mpr
    (List.mem_filterMap.mpr ⟨kv, hkv, hmk⟩)

/-- Witness for C3 (amended): the single section of a concrete document
appears in the parsed output. -/
theorem c3_assembly_total_amended_witness :
    ∃ iv ∈ MaintenancePdf.parseIntervals "3000 miles or 3 months\n■ good plugs\n",
      iv.interval_miles = 3000 ∧ iv.interval_months = 3 ∧
        iv.items = MaintenancePdf.parseItems "\n■ good plugs\n".toList :=
  c3_assembly_total_amended "3000 miles or 3 months\n■ good plugs\n"
    ((3000, 3), "\n■ good plugs\n".toList) (by decide) (by decide)

/-- Claim C5 (amended): the cleaner collapses internal whitespace runs to a
single space (every whitespace character of the collapsed text is a plain
space), strips a leading numeric token with its trailing whitespace and
removes parenthesised segments, then strips the ends; the footer patterns
(verification stamp, `"Date:"`, `"Mileage:"`) are defined but sliced away
by `noise_patterns[:-3]` and are never applied. -/
theorem c5_clean_service_text_amended :
    ∀ (l : List Char),
      MaintenancePdf.cleanServiceTextL l =
        MaintenancePdf.stripL
          (MaintenancePdf.removeParens
            (MaintenancePdf.stripLeadingNum (MaintenancePdf.collapseWs l))) ∧
      (MaintenancePdf.collapseWs l).all
        (fun c => !MaintenancePdf.isSpaceB c || c = ' ') = true := by
  intro l
  exact ⟨rfl, MaintenancePdf.collapseWs_space l⟩

/-- Claim C7: condition resolution attributes nothing without a governing
keyword: a sub-span none of whose lines contains a condition keyword yields
no items; lines preceding the first recognized keyword are dropped (running
the loop on them changes nothing); and the loop body flushes a buffer — as
items classified under the previous current condition — only when a current
condition was already set and a different condition is recognized. -/
theorem c7_condition_resolution :
    (∀ cs : List Char,
      ((MaintenancePdf.splitLines cs).all
        (fun l => (MaintenancePdf.detectCondition l).isNone)) = true →
      MaintenancePdf.parseSpecialConditions cs = []) ∧
    (∀ (pre rest : List (List Char)),
      (pre.all (fun l => (MaintenancePdf.detectCondition l).isNone)) = true →
      MaintenancePdf.runLines (none, []) (pre ++ rest) =
        MaintenancePdf.runLines (none, []) rest) ∧
    (∀ (cur : Option String) (block : List (List Char)) (line : List Char),
      (MaintenancePdf.processLine (cur, block) line).2 ≠ [] →
      ∃ c p, MaintenancePdf.detectCondition line = some c ∧ cur = some p ∧ c ≠ p ∧
        (MaintenancePdf.processLine (cur, block) line).2 =
          MaintenancePdf.extractItems (MaintenancePdf.joinLines block)
            "special_condition" (some p)) := by
  have hpre : ∀ (pre rest : List (List Char)),
      (pre.all (fun l => (MaintenancePdf.detectCondition l).isNone)) = true →
      MaintenancePdf.runLines (none, []) (pre ++ rest) =
        MaintenancePdf.runLines (none, []) rest := by
    intro pre
    induction pre with
    | nil => intro rest _; rfl
    | cons l pre ih =>
      intro rest hall
      rcases List.all_eq_true.mp hall l (by simp) |> Option.isNone_iff_eq_none.mp
        with hdet
      have hrest : pre.all (fun l => (MaintenancePdf.detectCondition l).isNone) = true :=
        List.all_eq_true.mpr (fun x hx => List.all_eq_true.mp hall x (by simp [hx]))
      calc MaintenancePdf.runLines (none, []) ((l :: pre) ++ rest)
          = MaintenancePdf.runLines (none, [l]) (pre ++ rest) := by
            simp [MaintenancePdf.runLines, MaintenancePdf.processLine, hdet]
        _ = MaintenancePdf.runLines (none, []) (pre ++ rest) :=
            MaintenancePdf.runLines_none_blocks _ [l] []
        _ = MaintenancePdf.runLines (none, []) rest := ih rest hrest
  refine ⟨?_, hpre, ?_⟩
  · intro cs hall
    have h := hpre (MaintenancePdf.splitLines cs) [] hall
    rw [List.append_nil] at h
    exact h
  · intro cur block line h
    rcases hd : MaintenancePdf.detectCondition line with _ | c
    · rw [MaintenancePdf.processLine, hd] at h
      exact absurd rfl h
    · rw [MaintenancePdf.processLine, hd] at h ⊢
      dsimp only at h ⊢
      by_cases hc : some c = cur
      · rw [if_pos hc] at h
        exact absurd rfl h
      · rw [if_neg hc] at h ⊢
        rcases cur with _ | p
        · exact absurd rfl h
        · dsimp only at h ⊢
          by_cases hb : block = []
          · rw [if_pos hb] at h
            exact absurd rfl h
          · rw [if_neg hb] at h ⊢
            exact ⟨c, p, rfl, rfl, fun e => hc (by rw [e]), rfl⟩

/-- Witness for C7: concrete instances of the three conjuncts — a
keyword-free span yields nothing, a keyword-free prefix is dropped, and a
concrete flush happens exactly at a condition switch, tagged with the
previous condition. -/
theorem c7_condition_resolution_witness :
    MaintenancePdf.parseSpecialConditions "plain text only".toList = [] ∧
    MaintenancePdf.runLines (none, []) (["hello".toList] ++ ["dusty".toList]) =
      MaintenancePdf.runLines (none, []) ["dusty".toList] ∧
    ∃ c p, MaintenancePdf.detectCondition "dusty road ahead".toList = some c ∧
      (some "towing" : Option String) = some p ∧ c ≠ p ∧
      (MaintenancePdf.processLine (some "towing", ["_ good brakes".toList])
          "dusty road ahead".toList).2 =
        MaintenancePdf.extractItems (MaintenancePdf.joinLines ["_ good brakes".toList])
          "special_condition" (some p) :=
  ⟨c7_condition_resolution.1 "plain text only".toList (by decide),
   c7_condition_resolution.2.1 ["hello".toList] ["dusty".toList] (by decide),
   c7_condition_resolution.2.2 (some "towing") ["_ good brakes".toList]
     "dusty road ahead".toList (by decide)⟩

/-- Claim C8 (amended): within each marker class the extractor preserves
document order — the match positions of both the checkbox scan and the
underscore scan are strictly increasing — but the returned list is all
checkbox items followed by all inspection items, not the interleaved
document order of the markers. -/
theorem c8_extraction_order_amended :
    ∀ (cs : List Char) (cat : String) (cond : Option String),
      MaintenancePdf.extractItems cs cat cond =
        MaintenancePdf.cbItems cs cat cond ++ MaintenancePdf.inspItems cs cond ∧
      (MaintenancePdf.finditerCb cs).Pairwise (fun a b => a.1 < b.1) ∧
      (MaintenancePdf.finditerInsp cs).Pairwise (fun a b => a.1 < b.1) := by
  intro cs cat cond
  exact ⟨rfl, MaintenancePdf.finditerAux_pos_sorted _ _ _ _,
    MaintenancePdf.finditerAux_pos_sorted _ _ _ _⟩
